import Mathlib

/-!
Verification of the uAgents-NPM messaging core against its specification.

The TypeScript sources are embedded shallowly:
* byte strings are `List Nat` (each element < 256),
* JavaScript strings are Lean `String` / `List Char`,
* fallible operations return `Option` / `Except`,
* external collaborators that are not part of the verified sources
  (`fetch`, the dispatcher registry, `Identity` key material, `Math.random`)
  are passed in as explicit functional parameters.

Components embedded from the sources: the `Envelope` class (payload
base64 encoding, signing digest, signature verification), the
`EnvelopeHistory` retention log, the `pydanticStringify` schema
canonicalizer and `buildSchemaDigest`, the `Resolver` identifier parsing
and weighted random sampling, and the `Communication` delivery loop and
`Dispenser` queue.
-/

namespace UAgents

/-! ## UTF-8 encoding and decoding

Models the conversion between JavaScript strings and bytes performed by
`Buffer.from(string)` / `buffer.toString()` and by `js-sha256`'s string
update (all of which use UTF-8). -/

/-- UTF-8 encoding of a single Unicode scalar value (a Lean `Char`). -/
def utf8EncodeChar (c : Char) : List Nat :=
  if c.toNat < 0x80 then [c.toNat]
  else if c.toNat < 0x800 then
    [0xC0 + c.toNat / 64, 0x80 + c.toNat % 64]
  else if c.toNat < 0x10000 then
    [0xE0 + c.toNat / 4096, 0x80 + c.toNat / 64 % 64, 0x80 + c.toNat % 64]
  else
    [0xF0 + c.toNat / 262144, 0x80 + c.toNat / 4096 % 64, 0x80 + c.toNat / 64 % 64,
     0x80 + c.toNat % 64]

/-- UTF-8 encoding of a whole string. -/
def utf8Str (s : String) : List Nat :=
  (s.data.map utf8EncodeChar).flatten

/-- UTF-8 decoding worker; `fuel` bounds the number of decoded scalars
(one unit is spent per scalar, so `l.length` is always enough). -/
def utf8DecodeF : Nat → List Nat → Option (List Char)
  | _, [] => some []
  | 0, _ :: _ => none
  | fuel + 1, b :: rest =>
    if b < 0x80 then
      (utf8DecodeF fuel rest).map (fun cs => Char.ofNat b :: cs)
    else if b < 0xE0 then
      match rest with
      | b2 :: rest2 =>
        if 0xC0 ≤ b ∧ 0x80 ≤ b2 ∧ b2 < 0xC0 then
          if Nat.isValidChar ((b - 0xC0) * 64 + (b2 - 0x80)) ∧
              0x80 ≤ (b - 0xC0) * 64 + (b2 - 0x80) then
            (utf8DecodeF fuel rest2).map (fun cs => Char.ofNat ((b - 0xC0) * 64 + (b2 - 0x80)) :: cs)
          else none
        else none
      | _ => none
    else if b < 0xF0 then
      match rest with
      | b2 :: b3 :: rest2 =>
        if (0x80 ≤ b2 ∧ b2 < 0xC0) ∧ (0x80 ≤ b3 ∧ b3 < 0xC0) then
          if Nat.isValidChar ((b - 0xE0) * 4096 + (b2 - 0x80) * 64 + (b3 - 0x80)) ∧
              0x800 ≤ (b - 0xE0) * 4096 + (b2 - 0x80) * 64 + (b3 - 0x80) then
            (utf8DecodeF fuel rest2).map
              (fun cs => Char.ofNat ((b - 0xE0) * 4096 + (b2 - 0x80) * 64 + (b3 - 0x80)) :: cs)
          else none
        else none
      | _ => none
    else
      match rest with
      | b2 :: b3 :: b4 :: rest2 =>
        if b < 0xF8 ∧ (0x80 ≤ b2 ∧ b2 < 0xC0) ∧ (0x80 ≤ b3 ∧ b3 < 0xC0) ∧
            (0x80 ≤ b4 ∧ b4 < 0xC0) then
          if Nat.isValidChar
                ((b - 0xF0) * 262144 + (b2 - 0x80) * 4096 + (b3 - 0x80) * 64 + (b4 - 0x80)) ∧
              0x10000 ≤ (b - 0xF0) * 262144 + (b2 - 0x80) * 4096 + (b3 - 0x80) * 64 + (b4 - 0x80) then
            (utf8DecodeF fuel rest2).map
              (fun cs =>
                Char.ofNat
                  ((b - 0xF0) * 262144 + (b2 - 0x80) * 4096 + (b3 - 0x80) * 64 + (b4 - 0x80)) :: cs)
          else none
        else none
      | _ => none

/-- UTF-8 decoding of a byte list back to characters; `none` on malformed
input (the Node runtime is lenient on malformed input, which no code path
under verification relies on). -/
def utf8Decode (l : List Nat) : Option (List Char) :=
  utf8DecodeF l.length l

/-! ## JavaScript `Array.prototype.join` -/

/-- Model of `arr.join(sep)`. -/
def jsJoin (sep : String) : List String → String
  | [] => ""
  | [s] => s
  | s :: rest => s ++ sep ++ jsJoin sep rest

/-! ## SHA-256

A full implementation of SHA-256 over byte lists, used by the envelope
signing digest and the schema digest.  32-bit machine words are `Nat`s
reduced mod `2 ^ 32`. -/

/-- Right rotation of a 32-bit word. -/
def rotr32 (n x : Nat) : Nat := (x / 2 ^ n + (x % 2 ^ n) * 2 ^ (32 - n)) % 2 ^ 32

/-- Logical right shift. -/
def shr32 (n x : Nat) : Nat := x / 2 ^ n

/-- Addition mod `2 ^ 32`. -/
def add32 (a b : Nat) : Nat := (a + b) % 2 ^ 32

/-- Small sigma-0 schedule function. -/
def sha256s0 (x : Nat) : Nat := (rotr32 7 x) ^^^ (rotr32 18 x) ^^^ (shr32 3 x)

/-- Small sigma-1 schedule function. -/
def sha256s1 (x : Nat) : Nat := (rotr32 17 x) ^^^ (rotr32 19 x) ^^^ (shr32 10 x)

/-- Big sigma-0 compression function. -/
def sha256S0 (x : Nat) : Nat := (rotr32 2 x) ^^^ (rotr32 13 x) ^^^ (rotr32 22 x)

/-- Big sigma-1 compression function. -/
def sha256S1 (x : Nat) : Nat := (rotr32 6 x) ^^^ (rotr32 11 x) ^^^ (rotr32 25 x)

/-- The 64 SHA-256 round constants. -/
def sha256K : List Nat :=
  [1116352408, 1899447441, 3049323471, 3921009573, 961987163,
   1508970993, 2453635748, 2870763221, 3624381080, 310598401,
   607225278, 1426881987, 1925078388, 2162078206, 2614888103,
   3248222580, 3835390401, 4022224774, 264347078, 604807628,
   770255983, 1249150122, 1555081692, 1996064986, 2554220882,
   2821834349, 2952996808, 3210313671, 3336571891, 3584528711,
   113926993, 338241895, 666307205, 773529912, 1294757372,
   1396182291, 1695183700, 1986661051, 2177026350, 2456956037,
   2730485921, 2820302411, 3259730800, 3345764771, 3516065817,
   3600352804, 4094571909, 275423344, 430227734, 506948616,
   659060556, 883997877, 958139571, 1322822218, 1537002063,
   1747873779, 1955562222, 2024104815, 2227730452, 2361852424,
   2428436474, 2756734187, 3204031479, 3329325298]

/-- Group bytes into big-endian 32-bit words. -/
def wordsOfBytes : List Nat → List Nat
  | a :: b :: c :: d :: rest => (((a * 256 + b) * 256 + c) * 256 + d) :: wordsOfBytes rest
  | _ => []

/-- Extend the 16 message words by `i` additional schedule words. -/
def sha256Schedule (ws : List Nat) : Nat → List Nat
  | 0 => ws
  | j + 1 =>
    let ws' := sha256Schedule ws j
    let n := ws'.length
    ws' ++ [add32 (add32 (sha256s1 (ws'.getD (n - 2) 0)) (ws'.getD (n - 7) 0))
            (add32 (sha256s0 (ws'.getD (n - 15) 0)) (ws'.getD (n - 16) 0))]

/-- The eight 32-bit words of SHA-256 working state. -/
structure Sha256State where
  a : Nat
  b : Nat
  c : Nat
  d : Nat
  e : Nat
  f : Nat
  g : Nat
  h : Nat

/-- One SHA-256 round, consuming a (round constant, schedule word) pair. -/
def sha256Round (st : Sha256State) (kw : Nat × Nat) : Sha256State :=
  let t1 := add32 st.h (add32 (sha256S1 st.e)
    (add32 ((st.e &&& st.f) ^^^ ((2 ^ 32 - 1 - st.e) &&& st.g)) (add32 kw.1 kw.2)))
  let t2 := add32 (sha256S0 st.a) (((st.a &&& st.b) ^^^ (st.a &&& st.c)) ^^^ (st.b &&& st.c))
  ⟨add32 t1 t2, st.a, st.b, st.c, add32 st.d t1, st.e, st.f, st.g⟩

/-- Compress one 64-byte block into the state. -/
def sha256Compress (st : Sha256State) (block : List Nat) : Sha256State :=
  let ws := sha256Schedule (wordsOfBytes block) 48
  let fin := (sha256K.zip ws).foldl sha256Round st
  ⟨add32 st.a fin.a, add32 st.b fin.b, add32 st.c fin.c, add32 st.d fin.d,
   add32 st.e fin.e, add32 st.f fin.f, add32 st.g fin.g, add32 st.h fin.h⟩

/-- Standard SHA-256 padding: `0x80`, zeros, 64-bit big-endian bit length. -/
def sha256Pad (msg : List Nat) : List Nat :=
  let padLen := (55 - msg.length % 64 + 64) % 64 + 1
  let bitLen := msg.length * 8
  msg ++ (0x80 :: List.replicate (padLen - 1) 0) ++
    [bitLen / 2 ^ 56 % 256, bitLen / 2 ^ 48 % 256, bitLen / 2 ^ 40 % 256, bitLen / 2 ^ 32 % 256,
     bitLen / 2 ^ 24 % 256, bitLen / 2 ^ 16 % 256, bitLen / 2 ^ 8 % 256, bitLen % 256]

/-- Fold the compression function over `n` blocks. -/
def sha256Blocks : Nat → Sha256State → List Nat → Sha256State
  | 0, st, _ => st
  | n + 1, st, l => sha256Blocks n (sha256Compress st (l.take 64)) (l.drop 64)

/-- Serialize one 32-bit word to four big-endian bytes. -/
def bytesOfWord (w : Nat) : List Nat := [w / 2 ^ 24 % 256, w / 2 ^ 16 % 256, w / 2 ^ 8 % 256, w % 256]

/-- SHA-256 of a byte list, as a list of 32 bytes. -/
def sha256 (msg : List Nat) : List Nat :=
  let init : Sha256State :=
    ⟨1779033703, 3144134277, 1013904242, 2773480762,
     1359893119, 2600822924, 528734635, 1541459225⟩
  let padded := sha256Pad msg
  let fin := sha256Blocks (padded.length / 64) init padded
  bytesOfWord fin.a ++ bytesOfWord fin.b ++ bytesOfWord fin.c ++ bytesOfWord fin.d ++
  bytesOfWord fin.e ++ bytesOfWord fin.f ++ bytesOfWord fin.g ++ bytesOfWord fin.h

/-- Lowercase hexadecimal digit. -/
def hexDigit (n : Nat) : Char :=
  if n < 10 then Char.ofNat (48 + n) else Char.ofNat (87 + n)

/-- Lowercase hexadecimal rendering of a byte list, as produced by Node's
`hash.digest("hex")`. -/
def bytesToHex (bytes : List Nat) : String :=
  String.mk ((bytes.map (fun b => [hexDigit (b / 16), hexDigit (b % 16)])).flatten)

/-! ## Base64

Models `Buffer.from(s).toString('base64')` and `Buffer.from(p, 'base64')`
on well-formed input. -/

/-- The base64 alphabet, indexed by a 6-bit value. -/
def sixToChar (n : Nat) : Char :=
  if n < 26 then Char.ofNat (65 + n)
  else if n < 52 then Char.ofNat (97 + (n - 26))
  else if n < 62 then Char.ofNat (48 + (n - 52))
  else if n = 62 then '+'
  else '/'

/-- Inverse of the base64 alphabet. -/
def charToSix (c : Char) : Option Nat :=
  if 65 ≤ c.toNat ∧ c.toNat ≤ 90 then some (c.toNat - 65)
  else if 97 ≤ c.toNat ∧ c.toNat ≤ 122 then some (c.toNat - 97 + 26)
  else if 48 ≤ c.toNat ∧ c.toNat ≤ 57 then some (c.toNat - 48 + 52)
  else if c = '+' then some 62
  else if c = '/' then some 63
  else none

/-- Base64 encoding of a byte list (with `=` padding, as Node produces). -/
def b64Encode : List Nat → List Char
  | [] => []
  | [a] => [sixToChar (a / 4), sixToChar (a % 4 * 16), '=', '=']
  | [a, b] => [sixToChar (a / 4), sixToChar (a % 4 * 16 + b / 16), sixToChar (b % 16 * 4), '=']
  | a :: b :: c :: rest =>
    sixToChar (a / 4) :: sixToChar (a % 4 * 16 + b / 16) :: sixToChar (b % 16 * 4 + c / 64) ::
      sixToChar (c % 64) :: b64Encode rest

/-- Base64 decoding; `none` on malformed input (Node is lenient on
malformed input, which no code path under verification relies on). -/
def b64Decode : List Char → Option (List Nat)
  | [] => some []
  | c1 :: c2 :: c3 :: c4 :: rest =>
    if c3 = '=' ∧ c4 = '=' ∧ rest = [] then do
      let s1 ← charToSix c1
      let s2 ← charToSix c2
      pure [s1 * 4 + s2 / 16]
    else if c4 = '=' ∧ rest = [] then do
      let s1 ← charToSix c1
      let s2 ← charToSix c2
      let s3 ← charToSix c3
      pure [s1 * 4 + s2 / 16, s2 % 16 * 16 + s3 / 4]
    else do
      let s1 ← charToSix c1
      let s2 ← charToSix c2
      let s3 ← charToSix c3
      let s4 ← charToSix c4
      let tail ← b64Decode rest
      pure ((s1 * 4 + s2 / 16) :: (s2 % 16 * 16 + s3 / 4) :: (s3 % 4 * 64 + s4) :: tail)
  | _ => none

/-! ## Round-trip facts about the byte-level codecs -/

theorem char_toNat_valid (c : Char) : Nat.isValidChar c.toNat := c.valid

theorem char_toNat_lt (c : Char) : c.toNat < 0x110000 := by
  rcases char_toNat_valid c with h | h
  · omega
  · omega

theorem utf8EncodeChar_lt (c : Char) : ∀ b ∈ utf8EncodeChar c, b < 256 := by
  have hlt := char_toNat_lt c
  intro b hb
  unfold utf8EncodeChar at hb
  split at hb
  · simp only [List.mem_singleton] at hb
    omega
  · split at hb
    · simp only [List.mem_cons, List.mem_singleton, List.not_mem_nil, or_false] at hb
      rcases hb with rfl | rfl <;> omega
    · split at hb
      · simp only [List.mem_cons, List.mem_singleton, List.not_mem_nil, or_false] at hb
        rcases hb with rfl | rfl | rfl <;> omega
      · simp only [List.mem_cons, List.mem_singleton, List.not_mem_nil, or_false] at hb
        rcases hb with rfl | rfl | rfl | rfl <;> omega

theorem utf8Str_lt (s : String) : ∀ b ∈ utf8Str s, b < 256 := by
  intro b hb
  unfold utf8Str at hb
  rw [List.mem_flatten] at hb
  obtain ⟨l, hl, hbl⟩ := hb
  rw [List.mem_map] at hl
  obtain ⟨c, _, rfl⟩ := hl
  exact utf8EncodeChar_lt c b hbl

theorem utf8DecodeF_encodeChar (f : Nat) (c : Char) (rest : List Nat) :
    utf8DecodeF (f + 1) (utf8EncodeChar c ++ rest) =
      (utf8DecodeF f rest).map (fun cs => c :: cs) := by
  have hv := char_toNat_valid c
  have hlt := char_toNat_lt c
  by_cases h1 : c.toNat < 0x80
  · rw [utf8EncodeChar, if_pos h1, List.singleton_append]
    rcases rest with - | ⟨x1, - | ⟨x2, - | ⟨x3, xs⟩⟩⟩ <;>
      · simp only [utf8DecodeF]
        rw [if_pos h1, Char.ofNat_toNat]
  · by_cases h2 : c.toNat < 0x800
    · rw [utf8EncodeChar, if_neg h1, if_pos h2]
      have he : (0xC0 + c.toNat / 64 - 0xC0) * 64 + (0x80 + c.toNat % 64 - 0x80) = c.toNat := by
        omega
      show utf8DecodeF (f + 1) ((0xC0 + c.toNat / 64) :: (0x80 + c.toNat % 64) :: rest) = _
      rcases rest with - | ⟨x1, - | ⟨x2, xs⟩⟩ <;>
        · simp only [utf8DecodeF]
          rw [if_neg (by omega), if_pos (by omega), if_pos (by omega), he,
            if_pos ⟨hv, by omega⟩, Char.ofNat_toNat]
    · by_cases h3 : c.toNat < 0x10000
      · rw [utf8EncodeChar, if_neg h1, if_neg h2, if_pos h3]
        have he : (0xE0 + c.toNat / 4096 - 0xE0) * 4096 + (0x80 + c.toNat / 64 % 64 - 0x80) * 64 +
            (0x80 + c.toNat % 64 - 0x80) = c.toNat := by omega
        show utf8DecodeF (f + 1)
            ((0xE0 + c.toNat / 4096) :: (0x80 + c.toNat / 64 % 64) :: (0x80 + c.toNat % 64) ::
              rest) = _
        rcases rest with - | ⟨x1, xs⟩ <;>
          · simp only [utf8DecodeF]
            rw [if_neg (by omega), if_neg (by omega), if_pos (by omega),
              if_pos (by omega), he, if_pos ⟨hv, by omega⟩, Char.ofNat_toNat]
      · rw [utf8EncodeChar, if_neg h1, if_neg h2, if_neg h3]
        have he : (0xF0 + c.toNat / 262144 - 0xF0) * 262144 +
            (0x80 + c.toNat / 4096 % 64 - 0x80) * 4096 + (0x80 + c.toNat / 64 % 64 - 0x80) * 64 +
            (0x80 + c.toNat % 64 - 0x80) = c.toNat := by omega
        show utf8DecodeF (f + 1)
            ((0xF0 + c.toNat / 262144) :: (0x80 + c.toNat / 4096 % 64) ::
              (0x80 + c.toNat / 64 % 64) :: (0x80 + c.toNat % 64) :: rest) = _
        simp only [utf8DecodeF]
        rw [if_neg (by omega), if_neg (by omega), if_neg (by omega),
          if_pos (by omega), if_pos (by omega), he, Char.ofNat_toNat]

theorem utf8EncodeChar_length_pos (c : Char) : 1 ≤ (utf8EncodeChar c).length := by
  unfold utf8EncodeChar
  split
  · simp
  · split
    · simp
    · split <;> simp

theorem utf8Chars_length_ge (cs : List Char) :
    cs.length ≤ ((cs.map utf8EncodeChar).flatten).length := by
  induction cs with
  | nil => simp
  | cons c cs ih =>
    rw [List.map_cons, List.flatten_cons, List.length_append, List.length_cons]
    have := utf8EncodeChar_length_pos c
    omega

theorem utf8DecodeF_chars (cs : List Char) :
    ∀ extra : Nat, utf8DecodeF (cs.length + extra) ((cs.map utf8EncodeChar).flatten) = some cs := by
  induction cs with
  | nil =>
    intro extra
    cases extra <;> rfl
  | cons c cs ih =>
    intro extra
    rw [List.map_cons, List.flatten_cons]
    have hf : (c :: cs).length + extra = (cs.length + extra) + 1 := by
      rw [List.length_cons]
      omega
    rw [hf, utf8DecodeF_encodeChar, ih, Option.map_some']

theorem utf8Decode_utf8Str (s : String) : utf8Decode (utf8Str s) = some s.data := by
  unfold utf8Decode utf8Str
  have h := utf8Chars_length_ge s.data
  have hlen : ((s.data.map utf8EncodeChar).flatten).length =
      s.data.length + (((s.data.map utf8EncodeChar).flatten).length - s.data.length) := by
    omega
  rw [hlen, utf8DecodeF_chars]

theorem charToSix_sixToChar : ∀ n, n < 64 → charToSix (sixToChar n) = some n := by decide

theorem sixToChar_ne_pad : ∀ n, n < 64 → sixToChar n ≠ '=' := by decide

theorem b64_roundtrip : ∀ l : List Nat, (∀ x ∈ l, x < 256) → b64Decode (b64Encode l) = some l
  | [], _ => rfl
  | [a], hl => by
    have ha : a < 256 := hl a (by simp)
    rw [b64Encode, b64Decode, if_pos ⟨rfl, rfl, rfl⟩, charToSix_sixToChar _ (by omega),
      charToSix_sixToChar _ (by omega)]
    show some [a / 4 * 4 + a % 4 * 16 / 16] = some [a]
    have h1 : a / 4 * 4 + a % 4 * 16 / 16 = a := by omega
    rw [h1]
  | [a, b], hl => by
    have ha : a < 256 := hl a (by simp)
    have hb : b < 256 := hl b (by simp)
    rw [b64Encode, b64Decode,
      if_neg (by rintro ⟨h, -⟩; exact sixToChar_ne_pad _ (by omega) h),
      if_pos ⟨rfl, rfl⟩, charToSix_sixToChar _ (by omega), charToSix_sixToChar _ (by omega),
      charToSix_sixToChar _ (by omega)]
    show some [a / 4 * 4 + (a % 4 * 16 + b / 16) / 16,
        (a % 4 * 16 + b / 16) % 16 * 16 + b % 16 * 4 / 4] = some [a, b]
    have h1 : a / 4 * 4 + (a % 4 * 16 + b / 16) / 16 = a := by omega
    have h2 : (a % 4 * 16 + b / 16) % 16 * 16 + b % 16 * 4 / 4 = b := by omega
    rw [h1, h2]
  | [a, b, c], hl => by
    have ha : a < 256 := hl a (by simp)
    have hb : b < 256 := hl b (by simp)
    have hc : c < 256 := hl c (by simp)
    rw [b64Encode, b64Decode,
      if_neg (by rintro ⟨h, -⟩; exact sixToChar_ne_pad _ (by omega) h),
      if_neg (by rintro ⟨h, -⟩; exact sixToChar_ne_pad _ (by omega) h),
      charToSix_sixToChar _ (by omega), charToSix_sixToChar _ (by omega),
      charToSix_sixToChar _ (by omega), charToSix_sixToChar _ (by omega)]
    show some ((a / 4 * 4 + (a % 4 * 16 + b / 16) / 16) ::
        ((a % 4 * 16 + b / 16) % 16 * 16 + (b % 16 * 4 + c / 64) / 4) ::
        ((b % 16 * 4 + c / 64) % 4 * 64 + c % 64) :: []) = _
    have h1 : a / 4 * 4 + (a % 4 * 16 + b / 16) / 16 = a := by omega
    have h2 : (a % 4 * 16 + b / 16) % 16 * 16 + (b % 16 * 4 + c / 64) / 4 = b := by omega
    have h3 : (b % 16 * 4 + c / 64) % 4 * 64 + c % 64 = c := by omega
    rw [h1, h2, h3]
  | a :: b :: c :: d :: rest, hl => by
    have ha : a < 256 := hl a (by simp)
    have hb : b < 256 := hl b (by simp)
    have hc : c < 256 := hl c (by simp)
    have ih := b64_roundtrip (d :: rest) (fun x hx => hl x (by simp [hx]))
    rw [b64Encode, b64Decode,
      if_neg (by rintro ⟨h, -⟩; exact sixToChar_ne_pad _ (by omega) h),
      if_neg (by rintro ⟨h, -⟩; exact sixToChar_ne_pad _ (by omega) h),
      charToSix_sixToChar _ (by omega), charToSix_sixToChar _ (by omega),
      charToSix_sixToChar _ (by omega), charToSix_sixToChar _ (by omega)]
    show (b64Decode (b64Encode (d :: rest))).bind _ = _
    rw [ih]
    show some ((a / 4 * 4 + (a % 4 * 16 + b / 16) / 16) ::
        ((a % 4 * 16 + b / 16) % 16 * 16 + (b % 16 * 4 + c / 64) / 4) ::
        ((b % 16 * 4 + c / 64) % 4 * 64 + c % 64) :: d :: rest) = _
    have h1 : a / 4 * 4 + (a % 4 * 16 + b / 16) / 16 = a := by omega
    have h2 : (a % 4 * 16 + b / 16) % 16 * 16 + (b % 16 * 4 + c / 64) / 4 = b := by omega
    have h3 : (b % 16 * 4 + c / 64) % 4 * 64 + c % 64 = c := by omega
    rw [h1, h2, h3]

/-! ## Identity and Envelope (src `Envelope.ts`, embedded from `src/unnamed/part_004`) -/

/-- Modelled from the spec: `Identity` (the `crypto` module is not under
`src/`); per section 4.1 an identity can sign byte strings, and
`Envelope.sign` stores `identity.signB64(digest)`.  Only the signing
callback is relevant here. -/
structure Identity where
  signB64 : List Nat → String

/-- The envelope data model, mirroring the TypeScript `Envelope` class
fields: optional fields are `Option`s (JS `undefined` is `none`). -/
structure Envelope where
  version : Nat
  sender : String
  target : String
  session : String
  schemaDigest : String
  protocolDigest : Option String := none
  payload : Option String := none
  expires : Option Nat := none
  nonce : Option Nat := none
  signature : Option String := none
deriving DecidableEq

/-- Model of `encodePayload`: base64-encode the UTF-8 bytes of `value`
(`Buffer.from(value).toString('base64')`) and store it. -/
def Envelope.encodePayload (value : String) (e : Envelope) : Envelope :=
  {e with payload := some (String.mk (b64Encode (utf8Str value)))}

/-- Model of `decodePayload`: `if (!this.payload) return ''` covers both a
missing and an empty payload; otherwise base64-decode and read as UTF-8. -/
def Envelope.decodePayload (e : Envelope) : Option String :=
  match e.payload with
  | none => some ""
  | some p =>
    if p = "" then some ""
    else (b64Decode p.data).bind (fun bytes => (utf8Decode bytes).map String.mk)

/-- Eight big-endian bytes of a 64-bit integer
(`Buffer.alloc(8).writeBigUInt64BE`). -/
def beBytes64 (n : Nat) : List Nat :=
  [n / 2 ^ 56 % 256, n / 2 ^ 48 % 256, n / 2 ^ 40 % 256, n / 2 ^ 32 % 256,
   n / 2 ^ 24 % 256, n / 2 ^ 16 % 256, n / 2 ^ 8 % 256, n % 256]

/-- The byte stream fed to the SHA-256 hasher by `Envelope._digest()`:
`sender`, `target`, `session`, `schemaDigest`, then `payload` under the
JavaScript truthiness test `if (this.payload)` (so an empty string is
skipped), then `expires` under `if (this.expires)` (so `0` is skipped),
then `nonce` under `if (this.nonce !== undefined)` (so `0` is included). -/
def Envelope.digestInput (e : Envelope) : List Nat :=
  utf8Str e.sender ++ utf8Str e.target ++ utf8Str e.session ++ utf8Str e.schemaDigest ++
  (match e.payload with
   | some p => if p = "" then [] else utf8Str p
   | none => []) ++
  (match e.expires with
   | some x => if x = 0 then [] else beBytes64 x
   | none => []) ++
  (match e.nonce with
   | some n => beBytes64 n
   | none => [])

/-- Model of `Envelope._digest()`. -/
def Envelope.digest (e : Envelope) : List Nat :=
  sha256 e.digestInput

/-- Model of `Envelope.sign(identity)`: sets `signature` (only) to the
identity's signature over the digest. -/
def Envelope.sign (idty : Identity) (e : Envelope) : Envelope :=
  {e with signature := some (idty.signB64 e.digest)}

/-- Model of `Envelope.verify()`.  `vf` stands for the missing crypto
module's `Identity.verifyDigest(address, digest, signature)` (modelled
from the spec).  `if (!this.signature)` throws on a missing or empty
signature; otherwise the boolean verdict of `verifyDigest` is returned. -/
def Envelope.verifyWith (vf : String → List Nat → String → Bool) (e : Envelope) :
    Except String Bool :=
  match e.signature with
  | none => .error "Envelope signature is missing"
  | some s =>
    if s = "" then .error "Envelope signature is missing"
    else .ok (vf e.sender e.digest s)

/-! ## Envelope history (retention log) -/

/-- Mirror of the `EnvelopeHistoryEntry` class fields. -/
structure EnvelopeHistoryEntry where
  timestamp : Int
  version : Nat
  sender : String
  target : String
  session : String
  schemaDigest : String
  protocolDigest : Option String := none
  payload : Option String := none
deriving DecidableEq

/-- Mirror of the `EnvelopeHistory` class state. -/
structure EnvelopeHistory where
  envelopes : List EnvelopeHistoryEntry
deriving DecidableEq

/-- Model of `applyRetentionPolicy()`: keep entries with
`timestamp >= cutoffTime` where `cutoffTime = now - 86400`; the wall
clock read `Math.floor(Date.now() / 1000)` is the explicit `now`. -/
def EnvelopeHistory.applyRetentionPolicy (h : EnvelopeHistory) (now : Int) : EnvelopeHistory :=
  ⟨h.envelopes.filter (fun e => decide (now - 86400 ≤ e.timestamp))⟩

/-- Model of `addEntry(entry)`: push, then prune. -/
def EnvelopeHistory.addEntry (h : EnvelopeHistory) (now : Int) (entry : EnvelopeHistoryEntry) :
    EnvelopeHistory :=
  EnvelopeHistory.applyRetentionPolicy ⟨h.envelopes ++ [entry]⟩ now

/-! ## Claim C6: payload encode/decode round trip -/

theorem b64Encode_ne_nil : ∀ l : List Nat, l ≠ [] → b64Encode l ≠ []
  | [], h => absurd rfl h
  | [_], _ => by rw [b64Encode]; simp
  | [_, _], _ => by rw [b64Encode]; simp
  | _ :: _ :: _ :: _, _ => by rw [b64Encode]; simp

theorem utf8Str_ne_nil (s : String) (hs : s ≠ "") : utf8Str s ≠ [] := by
  have hd : s.data ≠ [] := by
    intro h
    apply hs
    cases s
    simp_all
  unfold utf8Str
  cases hdata : s.data with
  | nil => exact absurd hdata hd
  | cons c cs =>
    rw [List.map_cons, List.flatten_cons]
    intro hcontra
    have := utf8EncodeChar_length_pos c
    have : (utf8EncodeChar c ++ (cs.map utf8EncodeChar).flatten).length = 0 := by
      rw [hcontra]
      rfl
    rw [List.length_append] at this
    omega

/-- C6: for every UTF-8 string `s`, `decodePayload` after `encodePayload s`
returns `s` (including `s = ""`), and `decodePayload` on an envelope with
no payload returns the empty string. -/
theorem envelope_payload_roundtrip (e : Envelope) (s : String) :
    Envelope.decodePayload (Envelope.encodePayload s e) = some s ∧
    Envelope.decodePayload {e with payload := none} = some "" := by
  refine ⟨?_, rfl⟩
  by_cases hs0 : s = ""
  · subst hs0
    rfl
  · show Envelope.decodePayload {e with payload := some (String.mk (b64Encode (utf8Str s)))} =
      some s
    have hne : String.mk (b64Encode (utf8Str s)) ≠ "" := by
      intro hcontra
      apply b64Encode_ne_nil (utf8Str s) (utf8Str_ne_nil s hs0)
      have : (String.mk (b64Encode (utf8Str s))).data = ("" : String).data := by rw [hcontra]
      simpa using this
    show (if String.mk (b64Encode (utf8Str s)) = "" then some ""
        else (b64Decode (String.mk (b64Encode (utf8Str s))).data).bind
          (fun bytes => (utf8Decode bytes).map String.mk)) = some s
    rw [if_neg hne]
    show (b64Decode (b64Encode (utf8Str s))).bind _ = some s
    rw [b64_roundtrip _ (utf8Str_lt s)]
    show (utf8Decode (utf8Str s)).map String.mk = some s
    rw [utf8Decode_utf8Str]
    show some (String.mk s.data) = some s
    cases s
    rfl

/-! ## Claim C1 / C10: the signing digest byte stream -/

/-- Byte stream described by the claim verbatim: each optional field is
included if and only if it is present on the envelope. -/
def digestInputClaim (e : Envelope) : List Nat :=
  utf8Str e.sender ++ utf8Str e.target ++ utf8Str e.session ++ utf8Str e.schemaDigest ++
  (match e.payload with
   | some p => utf8Str p
   | none => []) ++
  (match e.expires with
   | some x => beBytes64 x
   | none => []) ++
  (match e.nonce with
   | some n => beBytes64 n
   | none => [])

/-- Byte stream described by the amended claim: `payload` and `nonce` are
included iff present (an empty payload contributes no bytes either way),
while `expires` is included iff present and nonzero. -/
def digestInputAmended (e : Envelope) : List Nat :=
  utf8Str e.sender ++ utf8Str e.target ++ utf8Str e.session ++ utf8Str e.schemaDigest ++
  (match e.payload with
   | some p => utf8Str p
   | none => []) ++
  (match e.expires with
   | some x => if x = 0 then [] else beBytes64 x
   | none => []) ++
  (match e.nonce with
   | some n => beBytes64 n
   | none => [])

/-- Concrete envelope carrying `expires = 0`, on which the claimed digest
layout disagrees with the implemented one. -/
def envExpiresZero : Envelope :=
  {version := 1, sender := "s", target := "t", session := "u", schemaDigest := "d",
   expires := some 0}

/-- C1 counterexample: on an envelope with `expires = 0` (present), the
implementation omits `expires` from the hashed byte stream, while the
claim's layout includes its eight big-endian bytes. -/
theorem envelope_digest_claim_counterexample :
    Envelope.digestInput envExpiresZero ≠ digestInputClaim envExpiresZero := by
  decide

/-- C1 (amended): the hashed byte stream is the fixed-order concatenation
with `payload` and `nonce` included iff present and `expires` included iff
present and nonzero; `sign` sets `signature` (only) to the identity's
signature over the SHA-256 of this stream. -/
theorem envelope_digest_amended (e : Envelope) (idty : Identity) :
    Envelope.digestInput e = digestInputAmended e ∧
    Envelope.sign idty e =
      {e with signature := some (idty.signB64 (sha256 (Envelope.digestInput e)))} := by
  constructor
  · unfold Envelope.digestInput digestInputAmended
    have hpay : (match e.payload with
        | some p => if p = "" then [] else utf8Str p
        | none => ([] : List Nat)) =
        (match e.payload with
        | some p => utf8Str p
        | none => ([] : List Nat)) := by
      cases e.payload with
      | none => rfl
      | some p =>
        show (if p = "" then [] else utf8Str p) = utf8Str p
        by_cases hp : p = ""
        · subst hp
          rw [if_pos rfl]
          rfl
        · rw [if_neg hp]
    rw [hpay]
  · rfl

/-- C10: an empty payload and a zero `expires` are excluded from the
digest exactly as if absent (hence the digests and any signature
verification verdicts coincide), whereas a zero `nonce` is included (it
appends eight zero bytes). -/
theorem envelope_digest_falsy_fields (e : Envelope)
    (vf : String → List Nat → String → Bool) (sig : String) :
    Envelope.digestInput {e with payload := some ""} =
      Envelope.digestInput {e with payload := none} ∧
    Envelope.digestInput {e with expires := some 0} =
      Envelope.digestInput {e with expires := none} ∧
    Envelope.digest {e with payload := some ""} = Envelope.digest {e with payload := none} ∧
    Envelope.digest {e with expires := some 0} = Envelope.digest {e with expires := none} ∧
    Envelope.digestInput {e with nonce := some 0} =
      Envelope.digestInput {e with nonce := none} ++ beBytes64 0 ∧
    Envelope.verifyWith vf {e with expires := some 0, signature := some sig} =
      Envelope.verifyWith vf {e with expires := none, signature := some sig} := by
  have hpay : Envelope.digestInput {e with payload := some ""} =
      Envelope.digestInput {e with payload := none} := rfl
  have hexp : Envelope.digestInput {e with expires := some 0} =
      Envelope.digestInput {e with expires := none} := rfl
  refine ⟨hpay, hexp, congrArg sha256 hpay, congrArg sha256 hexp, ?_, ?_⟩
  · show Envelope.digestInput {e with nonce := some 0} =
      Envelope.digestInput {e with nonce := none} ++ beBytes64 0
    unfold Envelope.digestInput
    simp only [List.append_assoc, List.append_nil]
  · unfold Envelope.verifyWith
    by_cases hsig : sig = ""
    · simp only [if_pos hsig]
    · simp only [if_neg hsig]
      have hdig : Envelope.digest {e with expires := some 0, signature := some sig} =
          Envelope.digest {e with expires := none, signature := some sig} :=
        congrArg sha256 rfl
      rw [hdig]

/-! ## Claim C7: verification behaviour -/

/-- Concrete envelope with a (non-empty) signature attached. -/
def envSigned : Envelope :=
  {version := 1, sender := "s", target := "t", session := "u", schemaDigest := "d",
   signature := some "sig"}

/-- C7 counterexample: with a present signature that does not verify
(the verifier returns `false`), `verify()` returns `false` instead of
failing with a `SignatureError`: it throws only for a missing signature. -/
theorem envelope_verify_claim_counterexample :
    Envelope.verifyWith (fun _ _ _ => false) envSigned = .ok false ∧
    ∀ msg : String, Envelope.verifyWith (fun _ _ _ => false) envSigned ≠ .error msg := by
  refine ⟨rfl, ?_⟩
  intro msg h
  rw [show Envelope.verifyWith (fun _ _ _ => false) envSigned = .ok false from rfl] at h
  exact Except.noConfusion h

/-- C7 (amended): `verify()` recomputes the very digest that `sign` signs
over (the signature field itself is not part of the digest) and checks
the stored signature against it with the sender's verification key; a
missing (or empty) signature throws the missing-signature error, and a
non-verifying signature yields the verdict `false` without throwing. -/
theorem envelope_verify_spec (vf : String → List Nat → String → Bool) (e : Envelope) :
    ((e.signature = none ∨ e.signature = some "") →
      Envelope.verifyWith vf e = .error "Envelope signature is missing") ∧
    (∀ s, e.signature = some s → s ≠ "" →
      Envelope.verifyWith vf e = .ok (vf e.sender (Envelope.digest e) s)) ∧
    (∀ idty : Identity, Envelope.digest (Envelope.sign idty e) = Envelope.digest e) := by
  refine ⟨?_, ?_, ?_⟩
  · rintro (h | h)
    · rw [Envelope.verifyWith, h]
    · rw [Envelope.verifyWith, h]
      show (if ("" : String) = "" then Except.error "Envelope signature is missing"
          else Except.ok (vf e.sender e.digest "")) = Except.error "Envelope signature is missing"
      rw [if_pos rfl]
  · intro s hs hne
    rw [Envelope.verifyWith, hs]
    show (if s = "" then Except.error "Envelope signature is missing"
        else Except.ok (vf e.sender e.digest s)) = Except.ok (vf e.sender (Envelope.digest e) s)
    rw [if_neg hne]
  · intro idty
    rfl

/-- C7 witness: a concrete instantiation of `envelope_verify_spec`. -/
theorem envelope_verify_spec_witness :
    Envelope.verifyWith (fun _ _ _ => true) {envSigned with signature := none} =
      .error "Envelope signature is missing" :=
  (envelope_verify_spec (fun _ _ _ => true) {envSigned with signature := none}).1 (Or.inl rfl)

/-! ## Claim C5: history retention -/

/-- C5: after `addEntry` returns, no retained entry is older than
`now - 86400`; the result is exactly the filtered append (pruning runs on
the insert itself), and in particular a subsequence of the old history
with the new entry appended — nothing else is ever added. -/
theorem envelopeHistory_addEntry_retention (h : EnvelopeHistory) (now : Int)
    (entry : EnvelopeHistoryEntry) :
    (∀ e ∈ (h.addEntry now entry).envelopes, ¬ e.timestamp < now - 86400) ∧
    (h.addEntry now entry).envelopes =
      (h.envelopes ++ [entry]).filter (fun e => decide (now - 86400 ≤ e.timestamp)) ∧
    (h.addEntry now entry).envelopes.Sublist (h.envelopes ++ [entry]) := by
  refine ⟨?_, rfl, List.filter_sublist _⟩
  intro e he
  have he' : e ∈ (h.envelopes ++ [entry]).filter
      (fun e => decide (now - 86400 ≤ e.timestamp)) := he
  have hp := (List.mem_filter.mp he').2
  simp only [decide_eq_true_eq] at hp
  omega

/-- C5 witness: concrete run of `addEntry` in which a stale entry is
pruned and the retention bound holds for a surviving entry. -/
theorem envelopeHistory_addEntry_retention_witness :
    (⟨100000, 1, "s", "t", "u", "d", none, none⟩ : EnvelopeHistoryEntry) ∈
      (EnvelopeHistory.addEntry ⟨[⟨1, 1, "s", "t", "u", "d", none, none⟩]⟩ 100000
        ⟨100000, 1, "s", "t", "u", "d", none, none⟩).envelopes ∧
    ¬ (⟨100000, 1, "s", "t", "u", "d", none, none⟩ : EnvelopeHistoryEntry).timestamp <
        100000 - 86400 :=
  ⟨by decide,
   (envelopeHistory_addEntry_retention ⟨[⟨1, 1, "s", "t", "u", "d", none, none⟩]⟩ 100000
      ⟨100000, 1, "s", "t", "u", "d", none, none⟩).1 _ (by decide)⟩

/-! ## Resolver (src `Resolver.ts`): identifier parsing -/

/-- Model of `s.includes(pat)` (substring containment). -/
def strIncludes (s pat : String) : Bool :=
  decide (pat.data <:+: s.data)

/-- Splitting worker for `String.prototype.split` with a non-empty
separator; `fuel` bounds the recursion (one unit per consumed character
block, so `l.length` is always enough). -/
def jsSplitGo (sep : List Char) : Nat → List Char → List Char → List (List Char)
  | _, [], acc => [acc.reverse]
  | 0, l, acc => [acc.reverse ++ l]
  | fuel + 1, c :: rest, acc =>
    if List.isPrefixOf sep (c :: rest) then
      acc.reverse :: jsSplitGo sep fuel (List.drop (sep.length - 1) rest) []
    else
      jsSplitGo sep fuel rest (c :: acc)

/-- Model of `s.split(sep)` for a non-empty separator.  JavaScript's
`split(sep, 2)` is `(jsSplit sep s).getD 0 / .getD 1`: the limit keeps
the first elements of the full split. -/
def jsSplit (sep s : String) : List String :=
  (jsSplitGo sep.data s.data.length s.data []).map String.mk

/-- Modelled from the spec: the fixed agent address length
(`AGENT_ADDRESS_LENGTH`) of `Config.ts`, which is not under `src/`; the
value is the uAgents address format's fixed length. -/
def AGENT_ADDRESS_LENGTH : Nat := 65

/-- Modelled from the spec: the fixed agent address prefix
(`AGENT_PREFIX`) of `Config.ts`, which is not under `src/`. -/
def AGENT_PREFIX : String := "agent"

/-- Model of `isValidAddress`: `isUser` stands for the missing crypto
module's `isUserAddress` (modelled from the spec as an oracle); otherwise
the fixed agent-address length and prefix pattern is checked. -/
def isValidAddress (isUser : String → Bool) (address : String) : Bool :=
  isUser address ||
    (address.length == AGENT_ADDRESS_LENGTH && List.isPrefixOf AGENT_PREFIX.data address.data)

/-- Final classification step of `parseIdentifier`: a remainder matching
the address pattern becomes the address, otherwise it becomes the name
(and the address stays empty). -/
def classifyRemainder (isUser : String → Bool) (pfx nm rest : String) :
    String × String × String :=
  if isValidAddress isUser rest then (pfx, nm, rest) else (pfx, rest, "")

/-- Model of `parseIdentifier`: strip the prefix at `"://"` (JS
`split("://", 2)`), take the name at `"/"` (JS `split("/", 2)`), then
classify the remainder as an address or a name. -/
def parseIdentifier (isUser : String → Bool) (identifier : String) :
    String × String × String :=
  let p1 :=
    if strIncludes identifier "://" then
      ((jsSplit "://" identifier).getD 0 "", (jsSplit "://" identifier).getD 1 "")
    else ("", identifier)
  let p2 :=
    if strIncludes p1.2 "/" then
      ((jsSplit "/" p1.2).getD 0 "", (jsSplit "/" p1.2).getD 1 "")
    else ("", p1.2)
  classifyRemainder isUser p1.1 p2.1 p2.2

/-- The claim's description of `parseIdentifier`, staged on the split
part lists themselves: the prefix is the part before the first `"://"`
when one occurs, the name is the part before the first `"/"` of the
remainder, and the final remainder is classified as address or name. -/
def parseIdentifierSpec (isUser : String → Bool) (identifier : String) :
    String × String × String :=
  let parts := jsSplit "://" identifier
  let pfx := if 2 ≤ parts.length then parts.getD 0 "" else ""
  let rest := if 2 ≤ parts.length then parts.getD 1 "" else identifier
  let parts2 := jsSplit "/" rest
  let nm := if 2 ≤ parts2.length then parts2.getD 0 "" else ""
  let rest2 := if 2 ≤ parts2.length then parts2.getD 1 "" else rest
  classifyRemainder isUser pfx nm rest2

theorem jsSplitGo_length_pos (sep : List Char) :
    ∀ (fuel : Nat) (l acc : List Char), 1 ≤ (jsSplitGo sep fuel l acc).length := by
  intro fuel
  induction fuel with
  | zero =>
    intro l acc
    cases l <;> simp [jsSplitGo]
  | succ f ih =>
    intro l acc
    cases l with
    | nil => simp [jsSplitGo]
    | cons c rest =>
      rw [jsSplitGo]
      split
      · simp
      · exact ih rest (c :: acc)

theorem jsSplitGo_two_iff (sep : List Char) (hsep : sep ≠ []) :
    ∀ (fuel : Nat) (l acc : List Char), l.length ≤ fuel →
      (2 ≤ (jsSplitGo sep fuel l acc).length ↔ sep <:+: l) := by
  intro fuel
  induction fuel with
  | zero =>
    intro l acc hl
    cases l with
    | nil =>
      simp only [jsSplitGo, List.length_singleton, List.infix_nil]
      constructor
      · omega
      · intro h
        exact absurd h hsep
    | cons c rest => simp at hl
  | succ f ih =>
    intro l acc hl
    cases l with
    | nil =>
      simp only [jsSplitGo, List.length_singleton, List.infix_nil]
      constructor
      · omega
      · intro h
        exact absurd h hsep
    | cons c rest =>
      rw [jsSplitGo]
      by_cases hp : List.isPrefixOf sep (c :: rest)
      · rw [if_pos hp, List.length_cons]
        constructor
        · intro _
          exact (List.isPrefixOf_iff_prefix.mp hp).isInfix
        · intro _
          have := jsSplitGo_length_pos sep f (List.drop (sep.length - 1) rest) []
          omega
      · rw [if_neg hp]
        have hrest : rest.length ≤ f := by
          simp only [List.length_cons] at hl
          omega
        rw [ih rest (c :: acc) hrest, List.infix_cons_iff]
        constructor
        · exact Or.inr
        · rintro (hpre | h)
          · exact absurd (List.isPrefixOf_iff_prefix.mpr hpre) hp
          · exact h

theorem strIncludes_two_parts (s sep : String) (hsep : sep.data ≠ []) :
    strIncludes s sep = true ↔ 2 ≤ (jsSplit sep s).length := by
  unfold strIncludes jsSplit
  rw [List.length_map, decide_eq_true_eq,
    jsSplitGo_two_iff sep.data hsep s.data.length s.data [] (le_refl _)]

theorem classifyRemainder_address (isUser : String → Bool) (pfx nm rest : String) :
    (classifyRemainder isUser pfx nm rest).2.2 ≠ "" →
      isValidAddress isUser (classifyRemainder isUser pfx nm rest).2.2 = true := by
  unfold classifyRemainder
  by_cases h : isValidAddress isUser rest = true
  · rw [if_pos h]
    intro _
    exact h
  · rw [if_neg h]
    intro hne
    exact absurd rfl hne

/-- C9: `parseIdentifier` realises exactly the staged split-and-classify
description (prefix before `"://"`, name before `"/"`, remainder
classified by the fixed address pattern), any returned non-empty address
satisfies the address pattern, and structurally malformed input such as
`"://"` degrades to empty name and address without failing. -/
theorem parseIdentifier_spec (isUser : String → Bool) (identifier : String) :
    parseIdentifier isUser identifier = parseIdentifierSpec isUser identifier ∧
    ((parseIdentifier isUser identifier).2.2 ≠ "" →
      isValidAddress isUser (parseIdentifier isUser identifier).2.2 = true) ∧
    parseIdentifier isUser "://" = ("", "", "") := by
  have h3 : ("://" : String).data ≠ [] := by decide
  have h1 : ("/" : String).data ≠ [] := by decide
  refine ⟨?_, ?_, ?_⟩
  · simp only [parseIdentifier, parseIdentifierSpec]
    by_cases hi : strIncludes identifier "://" = true
    · have hlen := (strIncludes_two_parts identifier "://" h3).mp hi
      rw [if_pos hi, if_pos hlen, if_pos hlen]
      dsimp only
      by_cases hi2 : strIncludes ((jsSplit "://" identifier).getD 1 "") "/" = true
      · have hlen2 := (strIncludes_two_parts _ "/" h1).mp hi2
        rw [if_pos hi2, if_pos hlen2, if_pos hlen2]
      · have hlen2 : ¬ 2 ≤ (jsSplit "/" ((jsSplit "://" identifier).getD 1 "")).length :=
          fun h => hi2 ((strIncludes_two_parts _ "/" h1).mpr h)
        rw [if_neg hi2, if_neg hlen2, if_neg hlen2]
    · have hlen : ¬ 2 ≤ (jsSplit "://" identifier).length := fun h =>
        hi ((strIncludes_two_parts identifier "://" h3).mpr h)
      rw [if_neg hi, if_neg hlen, if_neg hlen]
      dsimp only
      by_cases hi2 : strIncludes identifier "/" = true
      · have hlen2 := (strIncludes_two_parts _ "/" h1).mp hi2
        rw [if_pos hi2, if_pos hlen2, if_pos hlen2]
      · have hlen2 : ¬ 2 ≤ (jsSplit "/" identifier).length :=
          fun h => hi2 ((strIncludes_two_parts _ "/" h1).mpr h)
        rw [if_neg hi2, if_neg hlen2, if_neg hlen2]
  · exact classifyRemainder_address isUser _ _ _
  · show classifyRemainder isUser "" "" "" = ("", "", "")
    unfold classifyRemainder
    split <;> rfl

/-- C9 witness: a concrete run in which the remainder is classified as a
(user) address and the classification premise is discharged. -/
theorem parseIdentifier_spec_witness :
    isValidAddress (fun s => s == "user1")
      (parseIdentifier (fun s => s == "user1") "user1").2.2 = true :=
  (parseIdentifier_spec (fun s => s == "user1") "user1").2.1 (by decide)

/-! ## Resolver: weighted random sampling

The randomness is supplied explicitly: `shuffled` models the result of
`[...items].sort(() => Math.random() - 0.5)` (an engine-dependent
permutation of `items`), and `keys` models the drawn values
`weights.map(w => Math.pow(Math.random(), 1 / w))` (rationals stand in
for the floats; the sampled behaviour below holds for every drawing). -/

/-- Index order selected by the weighted branch: pair each key with its
index, sort descending by key (`(a, b) => b.value - a.value`), take `k`,
and keep the indices. -/
def wrsOrder (keys : List ℚ) (k : Nat) : List Nat :=
  ((List.insertionSort (fun a b : ℚ × Nat => b.1 ≤ a.1)
      (keys.enum.map (fun p => (p.2, p.1)))).take k).map (fun p => p.2)

/-- Model of `weightedRandomSample(items, weights, k)`.  With no weights
the shuffled copy is truncated to `k`; with weights the top-`k` indices
by key are looked up in `items` (an out-of-range JS `items[i]` is
`undefined`, modelled by `default`). -/
def weightedRandomSample {α : Type} [Inhabited α] (items : List α)
    (keysOpt : Option (List ℚ)) (shuffled : List α) (k : Nat) : List α :=
  match keysOpt with
  | none => shuffled.take k
  | some keys => (wrsOrder keys k).map (fun i => items.getD i default)

theorem map_getD_subperm {α : Type} [Inhabited α] (items : List α) (idx : List Nat)
    (hnd : idx.Nodup) (hlt : ∀ i ∈ idx, i < items.length) :
    (idx.map (fun i => items.getD i default)).Subperm items := by
  have h1 : idx.map (fun i => items.getD i default) =
      (idx.pmap (fun i (h : i < items.length) => (⟨i, h⟩ : Fin items.length)) hlt).map
        items.get := by
    rw [List.map_pmap]
    rw [← List.pmap_eq_map (fun i => i < items.length) (fun i => items.getD i default) idx hlt]
    apply List.pmap_congr_left
    intro i hi hlti _
    rw [List.getD_eq_getElem items default hlti]
    rfl
  rw [h1]
  have hnodupF : (idx.pmap (fun i (h : i < items.length) => (⟨i, h⟩ : Fin items.length))
      hlt).Nodup := by
    refine List.Nodup.pmap ?_ hnd
    intro a _ b _ hab
    exact congrArg Fin.val hab
  have hsub : (idx.pmap (fun i (h : i < items.length) => (⟨i, h⟩ : Fin items.length))
      hlt).Subperm (List.finRange items.length) :=
    hnodupF.subperm (fun a _ => List.mem_finRange a)
  obtain ⟨mid, hperm, hsubl⟩ := hsub
  refine List.Subperm.trans ⟨mid.map items.get, hperm.map _, hsubl.map _⟩ ?_
  rw [List.finRange_map_get]

theorem wrsOrder_nodup_lt (keys : List ℚ) (k : Nat) :
    (wrsOrder keys k).Nodup ∧ (∀ i ∈ wrsOrder keys k, i < keys.length) ∧
      (wrsOrder keys k).length = min k keys.length := by
  have hperm : (List.insertionSort (fun a b : ℚ × Nat => b.1 ≤ a.1)
      (keys.enum.map (fun p => (p.2, p.1)))).Perm (keys.enum.map (fun p => (p.2, p.1))) :=
    List.perm_insertionSort _ _
  have hsnd : (keys.enum.map (fun p => (p.2, p.1))).map Prod.snd = List.range keys.length := by
    rw [List.map_map]
    have : (Prod.snd ∘ fun p : Nat × ℚ => (p.2, p.1)) = Prod.fst := rfl
    rw [this, List.enum_map_fst]
  refine ⟨?_, ?_, ?_⟩
  · have hsorted_nodup : ((List.insertionSort (fun a b : ℚ × Nat => b.1 ≤ a.1)
        (keys.enum.map (fun p => (p.2, p.1)))).map Prod.snd).Nodup := by
      rw [(hperm.map Prod.snd).nodup_iff, hsnd]
      exact List.nodup_range _
    refine List.Sublist.nodup ?_ hsorted_nodup
    exact (List.take_sublist _ _).map _
  · intro i hi
    unfold wrsOrder at hi
    have : i ∈ (List.insertionSort (fun a b : ℚ × Nat => b.1 ≤ a.1)
        (keys.enum.map (fun p => (p.2, p.1)))).map Prod.snd :=
      ((List.take_sublist _ _).map _).mem hi
    rw [(hperm.map Prod.snd).mem_iff, hsnd, List.mem_range] at this
    exact this
  · unfold wrsOrder
    rw [List.length_map, List.length_take, List.length_insertionSort, List.length_map,
      List.enum_length]

/-- Deterministic part of the sampling contract: for every modelled
randomness, the unweighted branch returns `min k |items|` entries of a
permutation of `items`, and the weighted branch (one weight per item)
returns `min k |items|` entries drawn from `items` at pairwise distinct
positions; both results are sub-permutations of `items`. -/
theorem weightedRandomSample_count {α : Type} [Inhabited α] (items shuffled : List α)
    (keys : List ℚ) (k : Nat) :
    (shuffled.Perm items →
      (weightedRandomSample items none shuffled k).length = min k items.length ∧
      (weightedRandomSample items none shuffled k).Subperm items) ∧
    (keys.length = items.length →
      (weightedRandomSample items (some keys) shuffled k).length = min k items.length ∧
      (weightedRandomSample items (some keys) shuffled k).Subperm items) := by
  constructor
  · intro hp
    constructor
    · show (shuffled.take k).length = min k items.length
      rw [List.length_take, hp.length_eq]
    · exact ((List.take_sublist k shuffled).subperm).trans hp.subperm
  · intro hlen
    obtain ⟨hnd, hlt, hcnt⟩ := wrsOrder_nodup_lt keys k
    constructor
    · show ((wrsOrder keys k).map _).length = min k items.length
      rw [List.length_map, hcnt, hlen]
    · exact map_getD_subperm items (wrsOrder keys k) hnd (fun i hi => hlen ▸ hlt i hi)

/-! ## Communication (src `Communication.ts`)

`fetch`, the dispatcher registry size, its `dispatchMsg` (which may throw
`NoSinkError`) and the signature verifier are external collaborators
carried in an `ExchangeEnv`; the dispatcher pieces are modelled from the
spec since `Dispatch.ts` is not under `src/`. -/

/-- Modelled from the spec: the delivery status enumeration of
`types.ts`, which is not under `src/` (its two values are fixed by
`Communication.ts`'s uses). -/
inductive DeliveryStatus
  | delivered
  | failed
deriving DecidableEq

/-- Modelled from the spec: the `MsgStatus` record of `types.ts`, which
is not under `src/`; its five fields are fixed by `Communication.ts`'s
object literals and spec section 7. -/
structure MsgStatus where
  status : DeliveryStatus
  detail : String
  destination : String
  endpoint : String
  session : String
deriving DecidableEq

/-- Outcome of one `fetch` call: a thrown transport error, or an HTTP
response with its `ok` flag, body text, and (for the sync path) the
result of `Envelope.modelValidate(await response.json())` — `.error`
models a JSON-parse or validation throw. -/
inductive FetchResult
  | transportError (msg : String)
  | response (ok : Bool) (text : String) (parsed : Except String Envelope)

/-- The external collaborators of `sendExchangeEnvelope`. -/
structure ExchangeEnv where
  fetchFn : String → FetchResult
  sinksCount : Nat
  dispatchMsg : Envelope → Except String Unit
  verifyFn : String → List Nat → String → Bool

/-- Result delivered to the caller: a `MsgStatus`, or (sync pass-through)
the raw response envelope. -/
inductive SendOutcome
  | status (st : MsgStatus)
  | envelope (env : Envelope)
deriving DecidableEq

/-- Model of `dispatchSyncResponseEnvelope`: with no registered sinks the
envelope is passed back unchanged; otherwise it is dispatched locally
(a throwing `dispatchMsg` propagates to the caller's try/catch). -/
def dispatchSyncResponseEnvelope (cfg : ExchangeEnv) (env : Envelope) :
    Except String SendOutcome :=
  if cfg.sinksCount = 0 then .ok (.envelope env)
  else
    match cfg.dispatchMsg env with
    | .error m => .error m
    | .ok _ =>
      .ok (.status ⟨.delivered, "Sync message successfully delivered via HTTP",
        env.target, "", env.session⟩)

/-- Outcome of one endpoint attempt: delivery success, or a failed
attempt optionally pushing an error message (`none` models the
`!verified → continue` path, which pushes nothing). -/
inductive AttemptResult
  | success (out : SendOutcome)
  | failure (err : Option String)

/-- One iteration of the endpoint loop of `sendExchangeEnvelope`.
A verified-or-unsigned sync response is dispatched; a signed response
whose verification returns `false` is skipped silently (the
`catch` around `env.verify()` is unreachable here, because `verify`
throws only for a falsy signature and the `if (env.signature)` guard
already excludes that). -/
def attemptEndpoint (cfg : ExchangeEnv) (envelope : Envelope) (sync : Bool) (ep : String) :
    AttemptResult :=
  match cfg.fetchFn ep with
  | .transportError m => .failure (some ("Failed to send message: " ++ m))
  | .response ok text parsed =>
    if ok then
      if sync then
        match parsed with
        | .error m => .failure (some ("Failed to send message: " ++ m))
        | .ok respEnv =>
          match respEnv.signature with
          | some sg =>
            if sg ≠ "" then
              if cfg.verifyFn respEnv.sender (Envelope.digest respEnv) sg then
                match dispatchSyncResponseEnvelope cfg respEnv with
                | .ok out => .success out
                | .error m => .failure (some ("Failed to send message: " ++ m))
              else .failure none
            else
              match dispatchSyncResponseEnvelope cfg respEnv with
              | .ok out => .success out
              | .error m => .failure (some ("Failed to send message: " ++ m))
          | none =>
            match dispatchSyncResponseEnvelope cfg respEnv with
            | .ok out => .success out
            | .error m => .failure (some ("Failed to send message: " ++ m))
      else
        .success (.status ⟨.delivered, "Message successfully delivered via HTTP",
          envelope.target, ep, envelope.session⟩)
    else .failure (some text)

/-- The endpoint loop with its `errors` accumulator; on exhaustion the
caller receives `FAILED` with the fixed detail string, while the
accumulated errors feed the log line. -/
def sendExchangeEnvelopeAux (cfg : ExchangeEnv) (envelope : Envelope) (sync : Bool) :
    List String → List String → SendOutcome × List String
  | [], errs =>
    (.status ⟨.failed, "Message delivery failed", envelope.target, "", envelope.session⟩, errs)
  | ep :: rest, errs =>
    match attemptEndpoint cfg envelope sync ep with
    | .success out => (out, errs)
    | .failure none => sendExchangeEnvelopeAux cfg envelope sync rest errs
    | .failure (some m) => sendExchangeEnvelopeAux cfg envelope sync rest (errs ++ [m])

/-- Model of `sendExchangeEnvelope`, returning the delivery outcome and
the final `errors` array. -/
def sendExchangeEnvelope (cfg : ExchangeEnv) (envelope : Envelope) (endpoints : List String)
    (sync : Bool) : SendOutcome × List String :=
  sendExchangeEnvelopeAux cfg envelope sync endpoints []

/-- The log line emitted on exhaustion:
`Failed to deliver message to ${target} @ ${endpoints}: ${errors.join(", ")}`. -/
def failureLogLine (envelope : Envelope) (endpoints errs : List String) : String :=
  "Failed to deliver message to " ++ envelope.target ++ " @ " ++ jsJoin "," endpoints ++
    ": " ++ jsJoin ", " errs

/-- An endpoint attempt that fails at the HTTP layer: a thrown transport
error or a non-success (`!ok`) status. -/
def endpointFails : FetchResult → Prop
  | .transportError _ => True
  | .response ok _ _ => ok = false

/-- The error message such an attempt pushes onto `errors`. -/
def endpointError : FetchResult → String
  | .transportError m => "Failed to send message: " ++ m
  | .response _ text _ => text

theorem attemptEndpoint_fails (cfg : ExchangeEnv) (envelope : Envelope) (sync : Bool)
    (ep : String) (h : endpointFails (cfg.fetchFn ep)) :
    attemptEndpoint cfg envelope sync ep = .failure (some (endpointError (cfg.fetchFn ep))) := by
  unfold attemptEndpoint endpointError
  cases hf : cfg.fetchFn ep with
  | transportError m => rfl
  | response ok text parsed =>
    rw [hf] at h
    unfold endpointFails at h
    subst h
    rfl

theorem sendAux_all_fail (cfg : ExchangeEnv) (envelope : Envelope) (sync : Bool) :
    ∀ (endpoints errs : List String), (∀ ep ∈ endpoints, endpointFails (cfg.fetchFn ep)) →
      sendExchangeEnvelopeAux cfg envelope sync endpoints errs =
        (.status ⟨.failed, "Message delivery failed", envelope.target, "", envelope.session⟩,
         errs ++ endpoints.map (fun ep => endpointError (cfg.fetchFn ep))) := by
  intro endpoints
  induction endpoints with
  | nil =>
    intro errs _
    rw [List.map_nil, List.append_nil]
    rfl
  | cons ep rest ih =>
    intro errs h
    rw [sendExchangeEnvelopeAux,
      attemptEndpoint_fails cfg envelope sync ep (h ep (List.mem_cons_self ep rest))]
    show sendExchangeEnvelopeAux cfg envelope sync rest (errs ++ [endpointError (cfg.fetchFn ep)]) =
      _
    rw [ih (errs ++ [endpointError (cfg.fetchFn ep)])
        (fun e he => h e (List.mem_cons_of_mem ep he)),
      List.map_cons, List.append_assoc, List.singleton_append]

theorem isInfix_append_left {l t : List Char} (s : List Char) (h : l <:+: t) :
    l <:+: s ++ t := by
  obtain ⟨u, v, huv⟩ := h
  exact ⟨s ++ u, v, by rw [← huv]; simp [List.append_assoc]⟩

theorem mem_infix_jsJoin (sep : String) :
    ∀ (l : List String) (s : String), s ∈ l → s.data <:+: (jsJoin sep l).data
  | [], s, h => absurd h (List.not_mem_nil s)
  | [x], s, h => by
    rw [List.mem_singleton] at h
    subst h
    show s.data <:+: (jsJoin sep [s]).data
    rw [show jsJoin sep [s] = s from rfl]
  | x :: y :: rest, s, h => by
    rw [show jsJoin sep (x :: y :: rest) = x ++ sep ++ jsJoin sep (y :: rest) from rfl,
      String.data_append, String.data_append]
    rcases List.mem_cons.mp h with rfl | h2
    · rw [List.append_assoc]
      exact (List.prefix_append s.data _).isInfix
    · obtain ⟨u, v, huv⟩ := mem_infix_jsJoin sep (y :: rest) s h2
      exact ⟨x.data ++ sep.data ++ u, v, by rw [← huv]; simp [List.append_assoc]⟩

/-- C3 counterexample configuration: every endpoint answers HTTP 500. -/
def cfgAllFail : ExchangeEnv :=
  ⟨fun ep => .response false ("HTTP 500 from " ++ ep) (.error "x"),
   0, fun _ => .ok (), fun _ _ _ => false⟩

/-- The outbound envelope of the counterexample run. -/
def envOutbound : Envelope :=
  {version := 1, sender := "a", target := "b", session := "s1", schemaDigest := "d"}

/-- C3 counterexample: with both endpoints failing, the handle resolves
with `FAILED` but the fixed detail `"Message delivery failed"`, which
does not mention the endpoints' error messages. -/
theorem send_failed_detail_counterexample :
    (sendExchangeEnvelope cfgAllFail envOutbound ["u1", "u2"] false).1 =
      .status ⟨.failed, "Message delivery failed", "b", "", "s1"⟩ ∧
    ¬ ("HTTP 500 from u1".data <:+:
        "Message delivery failed".data) := by
  constructor
  · rfl
  · decide

/-- C3 (amended): when every endpoint attempt fails the delivery resolves
with `FAILED` and the fixed detail `"Message delivery failed"`; the
per-endpoint error messages (one per endpoint, in order) are aggregated
into the emitted failure log line instead, which mentions each of them. -/
theorem send_all_endpoints_fail (cfg : ExchangeEnv) (envelope : Envelope)
    (endpoints : List String) (sync : Bool)
    (h : ∀ ep ∈ endpoints, endpointFails (cfg.fetchFn ep)) :
    (sendExchangeEnvelope cfg envelope endpoints sync).1 =
      .status ⟨.failed, "Message delivery failed", envelope.target, "", envelope.session⟩ ∧
    (sendExchangeEnvelope cfg envelope endpoints sync).2 =
      endpoints.map (fun ep => endpointError (cfg.fetchFn ep)) ∧
    ∀ ep ∈ endpoints, (endpointError (cfg.fetchFn ep)).data <:+:
      (failureLogLine envelope endpoints (sendExchangeEnvelope cfg envelope endpoints sync).2).data := by
  have hrun := sendAux_all_fail cfg envelope sync endpoints [] h
  rw [sendExchangeEnvelope, hrun]
  refine ⟨rfl, by rw [List.nil_append], ?_⟩
  intro ep hep
  show (endpointError (cfg.fetchFn ep)).data <:+: (failureLogLine envelope endpoints
    ([] ++ endpoints.map (fun e => endpointError (cfg.fetchFn e)))).data
  rw [List.nil_append]
  unfold failureLogLine
  rw [String.data_append]
  have hmem : endpointError (cfg.fetchFn ep) ∈
      endpoints.map (fun e => endpointError (cfg.fetchFn e)) :=
    List.mem_map_of_mem _ hep
  exact isInfix_append_left _ (mem_infix_jsJoin ", " _ _ hmem)

/-- C3 witness: the amended statement at the concrete all-500 run. -/
theorem send_all_endpoints_fail_witness :
    (sendExchangeEnvelope cfgAllFail envOutbound ["u1", "u2"] false).2 =
      ["HTTP 500 from u1", "HTTP 500 from u2"] :=
  (send_all_endpoints_fail cfgAllFail envOutbound ["u1", "u2"] false
    (by intro ep hep; fin_cases hep <;> trivial)).2.1

/-! ## Dispenser (src `Communication.ts`) -/

/-- One queued outbound item; the caller's `responseFuture` (a plain
`Promise`) is modelled by an opaque handle id. -/
structure DispenserItem where
  envelope : Envelope
  endpoints : List String
  futureId : Nat
  sync : Bool
deriving DecidableEq

/-- The dispenser's state: its private `_envelopes` queue. -/
structure Dispenser where
  envelopes : List DispenserItem
deriving DecidableEq

/-- Model of `addEnvelope(envelope, endpoints, responseFuture, sync)`:
push the tuple onto the queue; nothing is resolved here. -/
def Dispenser.addEnvelope (d : Dispenser) (envelope : Envelope) (endpoints : List String)
    (futureId : Nat) (sync : Bool := false) : Dispenser :=
  ⟨d.envelopes ++ [⟨envelope, endpoints, futureId, sync⟩]⟩

/-- Model of `run()`: the body is `while (true) { return }`, which
returns on its first iteration.  The second component lists the future
resolutions performed — none: no queued envelope is processed and no
`responseFuture` is ever settled. -/
def Dispenser.run (d : Dispenser) : Dispenser × List (Nat × SendOutcome) :=
  (d, [])

/-- C4 (code bug): after enqueuing an envelope, running the dispenser
performs zero future resolutions — in particular the enqueued item's
handle is resolved zero times, not exactly once — and leaves the queue
untouched. -/
theorem dispenser_run_never_resolves (d : Dispenser) (envelope : Envelope)
    (endpoints : List String) (futureId : Nat) (sync : Bool) :
    ((d.addEnvelope envelope endpoints futureId sync).run).2 = [] ∧
    (((d.addEnvelope envelope endpoints futureId sync).run).2.filter
      (fun r => r.1 == futureId)).length = 0 ∧
    ((d.addEnvelope envelope endpoints futureId sync).run).1 =
      d.addEnvelope envelope endpoints futureId sync :=
  ⟨rfl, rfl, rfl⟩

/-! ## Schema canonicalizer (src `model.ts`, `pydanticStringify`)

The generated JSON schema (`createSchema` output of the external
`zod-openapi` library) is modelled as a JSON tree; numbers are integers
(the schema values the claims concern are integral), and `null` does not
occur in the function's declared input type
(`{[key: string]: any} | any[] | string | number | boolean`). -/

/-- JSON trees: the declared input domain of `pydanticStringify`. -/
inductive Json where
  | str (s : String)
  | num (n : Int)
  | bool (b : Bool)
  | arr (elements : List Json)
  | obj (entries : List (String × Json))

mutual

/-- Nesting depth, used as the termination measure of the canonicalizer
(auto-inserted titles are leaves and do not increase it). -/
def Json.depth : Json → Nat
  | .str _ => 0
  | .num _ => 0
  | .bool _ => 0
  | .arr l => 1 + Json.depthList l
  | .obj kvs => 1 + Json.depthEntries kvs

/-- Maximal depth of a list of trees. -/
def Json.depthList : List Json → Nat
  | [] => 0
  | j :: rest => max (Json.depth j) (Json.depthList rest)

/-- Maximal depth of the values of an entry list. -/
def Json.depthEntries : List (String × Json) → Nat
  | [] => 0
  | (_, v) :: rest => max (Json.depth v) (Json.depthEntries rest)

end

theorem depth_le_of_mem_list (j : Json) :
    ∀ l : List Json, j ∈ l → Json.depth j ≤ Json.depthList l := by
  intro l
  induction l with
  | nil => intro h; exact absurd h (List.not_mem_nil j)
  | cons x rest ih =>
    intro h
    rw [Json.depthList]
    rcases List.mem_cons.mp h with rfl | h2
    · exact le_max_left _ _
    · exact le_trans (ih h2) (le_max_right _ _)

theorem depth_le_of_mem_entries (p : String × Json) :
    ∀ kvs : List (String × Json), p ∈ kvs → Json.depth p.2 ≤ Json.depthEntries kvs := by
  intro kvs
  induction kvs with
  | nil => intro h; exact absurd h (List.not_mem_nil p)
  | cons x rest ih =>
    intro h
    rcases List.mem_cons.mp h with rfl | h2
    · show Json.depth p.2 ≤ Json.depthEntries (p :: rest)
      rcases p with ⟨k, v⟩
      rw [Json.depthEntries]
      exact le_max_left _ _
    · rcases x with ⟨k, v⟩
      rw [Json.depthEntries]
      exact le_trans (ih h2) (le_max_right _ _)

theorem depthEntries_append (a b : List (String × Json)) :
    Json.depthEntries (a ++ b) = max (Json.depthEntries a) (Json.depthEntries b) := by
  induction a with
  | nil => rw [List.nil_append, Json.depthEntries, Nat.max_comm, Nat.max_zero]
  | cons x rest ih =>
    rcases x with ⟨k, v⟩
    rw [List.cons_append, Json.depthEntries, Json.depthEntries, ih, Nat.max_assoc]

/-- Model of `key.charAt(0).toUpperCase() + key.slice(1)` (keys are
ASCII, where JS and Lean uppercasing agree). -/
def capitalizeWord (w : String) : String :=
  match w.data with
  | [] => ""
  | c :: rest => String.mk (c.toUpper :: rest)

/-- Auto-generated title: the enclosing field's key split on `_`, each
segment capitalized, joined with spaces. -/
def titleize (k : String) : String :=
  jsJoin " " ((jsSplit "_" k).map capitalizeWord)

/-- Model of `Object.keys(value).includes(key)`. -/
def objHasKey (entries : List (String × Json)) (key : String) : Bool :=
  entries.any (fun p => p.1 == key)

/-- Title insertion of the canonicalizer: an object value that carries a
`type` key but no `title` key receives `title = titleize key`
(`Object.keys` of arrays, strings, numbers and booleans never contains
`"type"`, so only objects are affected). -/
def autoTitle (k : String) : Json → Json
  | .obj entries =>
    if objHasKey entries "type" && !objHasKey entries "title" then
      .obj (entries ++ [("title", .str (titleize k))])
    else .obj entries
  | v => v

theorem depth_autoTitle (k : String) (v : Json) :
    Json.depth (autoTitle k v) = Json.depth v := by
  cases v with
  | obj entries =>
    rw [autoTitle]
    split
    · rw [Json.depth, Json.depth, depthEntries_append]
      have : Json.depthEntries [("title", Json.str (titleize k))] = 0 := rfl
      rw [this, Nat.max_zero]
    · rfl
  | str s => rfl
  | num n => rfl
  | bool b => rfl
  | arr l => rfl

/-- JavaScript's `value.length === 1`: meaningful for arrays and strings
(for other values `length` is `undefined` or absent). -/
def jsLengthOne : Json → Bool
  | .arr l => l.length == 1
  | .str s => s.length == 1
  | _ => false

/-- JavaScript's `value[0]` under `value.length === 1`: the sole element
of a singleton array; for a one-character string, `value[0]` is that same
string again. -/
def unwrapOne : Json → Json
  | .arr [x] => x
  | .str s => .str s
  | v => v

theorem depth_unwrapOne (v : Json) : Json.depth (unwrapOne v) ≤ Json.depth v := by
  cases v with
  | arr l =>
    cases l with
    | nil => exact le_refl _
    | cons x rest =>
      cases rest with
      | nil =>
        rw [unwrapOne, Json.depth, Json.depthList]
        omega
      | cons y rest2 => exact le_refl _
  | str s => exact le_refl _
  | num n => exact le_refl _
  | bool b => exact le_refl _
  | obj kvs => exact le_refl _

/-- Escape of one character inside a JSON string literal, as
`JSON.stringify` produces. -/
def escapeChar (c : Char) : String :=
  if c = '"' then "\\\""
  else if c = '\\' then "\\\\"
  else if c = '\n' then "\\n"
  else if c = '\r' then "\\r"
  else if c = '\t' then "\\t"
  else if c.toNat = 8 then "\\b"
  else if c.toNat = 12 then "\\f"
  else if c.toNat < 0x20 then "\\u00" ++ String.mk [hexDigit (c.toNat / 16), hexDigit (c.toNat % 16)]
  else String.singleton c

/-- `JSON.stringify` of a string. -/
def jsonQuote (s : String) : String :=
  "\"" ++ String.join (s.data.map escapeChar) ++ "\""

/-- Code-unit lexicographic comparison of character lists — the default
`Array.prototype.sort` string order (keys are ASCII, where UTF-16 code
units and code points agree). -/
def lexLe : List Char → List Char → Bool
  | [], _ => true
  | _ :: _, [] => false
  | a :: as, b :: bs =>
    if a.toNat < b.toNat then true
    else if b.toNat < a.toNat then false
    else lexLe as bs

/-- Key order used by `Object.keys(obj).sort()`. -/
def keyLe (a b : String) : Bool :=
  lexLe a.data b.data

/-- The sorting relation on entries (by key). -/
def entryLe (p q : String × Json) : Prop :=
  keyLe p.1 q.1 = true

instance : DecidableRel entryLe :=
  fun p q => inferInstanceAs (Decidable (keyLe p.1 q.1 = true))

/-- Model of `pydanticStringify`: primitives via `JSON.stringify`; arrays
elementwise in original order; objects with keys sorted, per-entry title
insertion, and the single-element unwrap under the `type` key; separators
are exactly comma-space and colon-space with no indentation.  The
`Object.keys(obj).length === 0` early return yields the same `"[]"` /
`"\x7b\x7d"` strings as the general branches and is kept as the explicit
empty clauses. -/
def pydanticStringify : Json → String
  | .str s => jsonQuote s
  | .num n => toString n
  | .bool b => if b then "true" else "false"
  | .arr [] => "[]"
  | .arr (j :: rest) =>
    "[" ++ jsJoin ", " ((j :: rest).attach.map (fun x => pydanticStringify x.1)) ++ "]"
  | .obj [] => "\x7b\x7d"
  | .obj (q :: rest) =>
    "\x7b" ++ jsJoin ", "
      ((List.insertionSort entryLe (q :: rest)).attach.map (fun p =>
        if p.1.1 = "type" ∧ jsLengthOne (autoTitle p.1.1 p.1.2) = true then
          "\"type\": " ++ pydanticStringify (unwrapOne (autoTitle p.1.1 p.1.2))
        else "\"" ++ p.1.1 ++ "\": " ++ pydanticStringify (autoTitle p.1.1 p.1.2))) ++ "\x7d"
termination_by j => Json.depth j
decreasing_by
  · have h := depth_le_of_mem_list x.1 (j :: rest) x.2
    simp only [Json.depth]
    omega
  · have hmem : p.1 ∈ q :: rest :=
      (List.perm_insertionSort entryLe (q :: rest)).mem_iff.mp p.2
    have h1 := depth_le_of_mem_entries p.1 (q :: rest) hmem
    have h2 := depth_autoTitle p.1.1 p.1.2
    have h3 := depth_unwrapOne (autoTitle p.1.1 p.1.2)
    simp only [Json.depth]
    omega
  · have hmem : p.1 ∈ q :: rest :=
      (List.perm_insertionSort entryLe (q :: rest)).mem_iff.mp p.2
    have h1 := depth_le_of_mem_entries p.1 (q :: rest) hmem
    have h2 := depth_autoTitle p.1.1 p.1.2
    simp only [Json.depth]
    omega

/-- Model of `buildSchemaDigest`: `model:` followed by the lowercase hex
SHA-256 of the canonical string's UTF-8 bytes.  The structural schema
produced for the model by the external `zod-openapi` `createSchema` is
the input. -/
def buildSchemaDigest (schemaJson : Json) : String :=
  "model:" ++ bytesToHex (sha256 (utf8Str (pydanticStringify schemaJson)))

/-- The claim's per-entry canonical rendering: the field's value after
title insertion, preceded by the quoted key and colon-space; a
single-element array under the `type` key is replaced by its bare
element. -/
def canonEntry : String × Json → String
  | (k, v) =>
    if k = "type" then
      match autoTitle k v with
      | .arr [x] => "\"type\": " ++ pydanticStringify x
      | w => "\"type\": " ++ pydanticStringify w
    else "\"" ++ k ++ "\": " ++ pydanticStringify (autoTitle k v)

/-! ## Properties of the key order -/

theorem lexLe_total : ∀ a b : List Char, lexLe a b = true ∨ lexLe b a = true := by
  intro a
  induction a with
  | nil => intro b; left; rfl
  | cons x as ih =>
    intro b
    cases b with
    | nil => right; rfl
    | cons y bs =>
      rw [lexLe, lexLe]
      by_cases h1 : x.toNat < y.toNat
      · left
        rw [if_pos h1]
      · by_cases h2 : y.toNat < x.toNat
        · right
          rw [if_pos h2]
        · rw [if_neg h1, if_neg h2, if_neg h2, if_neg h1]
          exact ih bs

theorem lexLe_cons_iff (x y : Char) (as bs : List Char) :
    lexLe (x :: as) (y :: bs) = true ↔
      x.toNat < y.toNat ∨ (x.toNat = y.toNat ∧ lexLe as bs = true) := by
  rw [lexLe]
  by_cases h1 : x.toNat < y.toNat
  · rw [if_pos h1]
    constructor
    · intro _
      exact Or.inl h1
    · intro _
      rfl
  · rw [if_neg h1]
    by_cases h2 : y.toNat < x.toNat
    · rw [if_pos h2]
      constructor
      · intro h
        exact Bool.noConfusion h
      · rintro (h | ⟨h, -⟩) <;> omega
    · rw [if_neg h2]
      constructor
      · intro h
        exact Or.inr ⟨by omega, h⟩
      · rintro (h | ⟨-, h⟩)
        · omega
        · exact h

theorem lexLe_trans : ∀ a b c : List Char,
    lexLe a b = true → lexLe b c = true → lexLe a c = true := by
  intro a
  induction a with
  | nil => intro b c _ _; rfl
  | cons x as ih =>
    intro b c hab hbc
    cases b with
    | nil => exact Bool.noConfusion hab
    | cons y bs =>
      cases c with
      | nil => exact Bool.noConfusion hbc
      | cons z cs =>
        rw [lexLe_cons_iff] at hab hbc ⊢
        rcases hab with h1 | ⟨h1, hr1⟩ <;> rcases hbc with h2 | ⟨h2, hr2⟩
        · exact Or.inl (by omega)
        · exact Or.inl (by omega)
        · exact Or.inl (by omega)
        · exact Or.inr ⟨by omega, ih bs cs hr1 hr2⟩

theorem char_eq_of_toNat_eq {x y : Char} (h : x.toNat = y.toNat) : x = y := by
  calc x = Char.ofNat x.toNat := (Char.ofNat_toNat x).symm
    _ = Char.ofNat y.toNat := by rw [h]
    _ = y := Char.ofNat_toNat y

theorem lexLe_antisymm : ∀ a b : List Char,
    lexLe a b = true → lexLe b a = true → a = b := by
  intro a
  induction a with
  | nil =>
    intro b hab hba
    cases b with
    | nil => rfl
    | cons y bs => exact Bool.noConfusion hba
  | cons x as ih =>
    intro b hab hba
    cases b with
    | nil => exact Bool.noConfusion hab
    | cons y bs =>
      rw [lexLe_cons_iff] at hab hba
      rcases hab with h1 | ⟨h1, hr1⟩
      · rcases hba with h2 | ⟨h2, -⟩ <;> omega
      · rcases hba with h2 | ⟨-, hr2⟩
        · omega
        · rw [char_eq_of_toNat_eq h1, ih bs hr1 hr2]

instance : IsTotal (String × Json) entryLe :=
  ⟨fun p q => lexLe_total p.1.data q.1.data⟩

instance : IsTrans (String × Json) entryLe :=
  ⟨fun p q r h1 h2 => lexLe_trans p.1.data q.1.data r.1.data h1 h2⟩

theorem keyLe_antisymm {a b : String} (hab : keyLe a b = true) (hba : keyLe b a = true) :
    a = b := by
  apply String.ext
  exact lexLe_antisymm a.data b.data hab hba

/-! ## A sorted entry list with distinct keys is unique in its
permutation class -/

theorem eq_of_perm_of_sorted_nodupKeys :
    ∀ (l₁ l₂ : List (String × Json)), l₁.Perm l₂ → l₁.Pairwise entryLe →
      l₂.Pairwise entryLe → (l₁.map Prod.fst).Nodup → l₁ = l₂ := by
  intro l₁
  induction l₁ with
  | nil =>
    intro l₂ hp _ _ _
    exact (hp.nil_eq).symm ▸ rfl
  | cons p t₁ ih =>
    intro l₂ hp hs₁ hs₂ hnd
    cases l₂ with
    | nil => exact absurd hp.symm.nil_eq (by simp)
    | cons q t₂ =>
      obtain ⟨hs₁head, hs₁tail⟩ := List.pairwise_cons.mp hs₁
      obtain ⟨hs₂head, hs₂tail⟩ := List.pairwise_cons.mp hs₂
      have hpq : p = q := by
        have hpin : p ∈ q :: t₂ := hp.mem_iff.mp (List.mem_cons_self p t₁)
        have hqin : q ∈ p :: t₁ := hp.symm.mem_iff.mp (List.mem_cons_self q t₂)
        rcases List.mem_cons.mp hpin with h | hpt₂
        · exact h
        · rcases List.mem_cons.mp hqin with h | hqt₁
          · exact h.symm
          · have h1 : entryLe q p := hs₂head p hpt₂
            have h2 : entryLe p q := hs₁head q hqt₁
            have hkeys : p.1 = q.1 := keyLe_antisymm h2 h1
            have : q.1 ∈ t₁.map Prod.fst := List.mem_map_of_mem Prod.fst hqt₁
            have hnotin : p.1 ∉ t₁.map Prod.fst := by
              rw [List.map_cons] at hnd
              exact (List.nodup_cons.mp hnd).1
            rw [hkeys] at hnotin
            exact absurd this hnotin
      subst hpq
      have htails : t₁.Perm t₂ := hp.cons_inv
      have : t₁ = t₂ := by
        apply ih t₂ htails hs₁tail hs₂tail
        rw [List.map_cons] at hnd
        exact (List.nodup_cons.mp hnd).2
      rw [this]

theorem entry_render_eq (k : String) (v : Json) :
    (if k = "type" ∧ jsLengthOne (autoTitle k v) = true then
      "\"type\": " ++ pydanticStringify (unwrapOne (autoTitle k v))
    else "\"" ++ k ++ "\": " ++ pydanticStringify (autoTitle k v)) = canonEntry (k, v) := by
  rw [canonEntry]
  by_cases hk : k = "type"
  · subst hk
    rw [if_pos rfl]
    have hq : ("\"" ++ "type" ++ "\": " : String) = "\"type\": " := by decide
    cases hv : autoTitle "type" v with
    | arr l =>
      cases l with
      | nil =>
        rw [if_neg (by rintro ⟨-, hc⟩; exact Bool.noConfusion hc), hq]
      | cons x rest =>
        cases rest with
        | nil =>
          rw [if_pos ⟨rfl, rfl⟩]
          rfl
        | cons y rest2 =>
          rw [if_neg (by rintro ⟨-, hc⟩; simp [jsLengthOne] at hc), hq]
    | str s =>
      by_cases hs : s.length = 1
      · rw [if_pos ⟨rfl, by simp [jsLengthOne, hs]⟩]
        rfl
      · rw [if_neg (by rintro ⟨-, hc⟩; simp [jsLengthOne, hs] at hc), hq]
    | num n => rw [if_neg (by rintro ⟨-, hc⟩; exact Bool.noConfusion hc), hq]
    | bool b => rw [if_neg (by rintro ⟨-, hc⟩; exact Bool.noConfusion hc), hq]
    | obj entries => rw [if_neg (by rintro ⟨-, hc⟩; exact Bool.noConfusion hc), hq]
  · rw [if_neg (fun hc => hk hc.1), if_neg hk]

theorem stringify_arr_eq (l : List Json) :
    pydanticStringify (.arr l) = "[" ++ jsJoin ", " (l.map pydanticStringify) ++ "]" := by
  cases l with
  | nil =>
    rw [pydanticStringify]
    decide
  | cons j rest =>
    rw [pydanticStringify, List.attach_map_coe]

theorem stringify_obj_eq (kvs : List (String × Json)) :
    pydanticStringify (.obj kvs) =
      "\x7b" ++ jsJoin ", " ((List.insertionSort entryLe kvs).map canonEntry) ++ "\x7d" := by
  cases kvs with
  | nil =>
    rw [pydanticStringify]
    decide
  | cons q rest =>
    rw [pydanticStringify,
      List.attach_map_coe _ (fun x : String × Json =>
        if x.1 = "type" ∧ jsLengthOne (autoTitle x.1 x.2) = true then
          "\"type\": " ++ pydanticStringify (unwrapOne (autoTitle x.1 x.2))
        else "\"" ++ x.1 ++ "\": " ++ pydanticStringify (autoTitle x.1 x.2)),
      List.map_congr_left (fun x _ => entry_render_eq x.1 x.2)]

theorem insertionSort_eq_of_perm (kvs kvs' : List (String × Json)) (hp : kvs.Perm kvs')
    (hnd : (kvs.map Prod.fst).Nodup) :
    List.insertionSort entryLe kvs = List.insertionSort entryLe kvs' := by
  apply eq_of_perm_of_sorted_nodupKeys
  · exact (List.perm_insertionSort entryLe kvs).trans
      (hp.trans (List.perm_insertionSort entryLe kvs').symm)
  · exact List.sorted_insertionSort entryLe kvs
  · exact List.sorted_insertionSort entryLe kvs'
  · rw [((List.perm_insertionSort entryLe kvs).map Prod.fst).nodup_iff]
    exact hnd

/-- C2: the canonical string of the schema-digest builder renders arrays
in their original order and objects with keys sorted alphabetically at
every nesting level (the per-level order is the sorted one, and any
key-reordering of an object with distinct keys leaves the string
unchanged), with exactly comma-space and colon-space separators and no
indentation; each entry inserts the auto-generated title into an object
value that has a `type` key but no `title` key and replaces a
single-element array under the `type` key by its bare element; the
digest is `model:` followed by the SHA-256 (lowercase hex) of the
string's UTF-8 bytes. -/
theorem pydanticStringify_canonical :
    (∀ l : List Json,
      pydanticStringify (.arr l) = "[" ++ jsJoin ", " (l.map pydanticStringify) ++ "]") ∧
    (∀ kvs : List (String × Json),
      pydanticStringify (.obj kvs) =
        "\x7b" ++ jsJoin ", " ((List.insertionSort entryLe kvs).map canonEntry) ++ "\x7d") ∧
    (∀ kvs : List (String × Json),
      List.Pairwise (fun a b : String => keyLe a b = true)
        ((List.insertionSort entryLe kvs).map Prod.fst)) ∧
    (∀ kvs kvs' : List (String × Json), kvs.Perm kvs' → (kvs.map Prod.fst).Nodup →
      pydanticStringify (.obj kvs) = pydanticStringify (.obj kvs')) ∧
    (∀ j : Json, buildSchemaDigest j =
      "model:" ++ bytesToHex (sha256 (utf8Str (pydanticStringify j)))) := by
  refine ⟨stringify_arr_eq, stringify_obj_eq, ?_, ?_, fun _ => rfl⟩
  · intro kvs
    exact List.Pairwise.map Prod.fst (fun a b h => h) (List.sorted_insertionSort entryLe kvs)
  · intro kvs kvs' hp hnd
    rw [stringify_obj_eq, stringify_obj_eq, insertionSort_eq_of_perm kvs kvs' hp hnd]

/-- C2 witness: reordering the keys of a two-field object does not change
the canonical string. -/
theorem pydanticStringify_canonical_witness :
    pydanticStringify (.obj [("b", .num 1), ("a", .num 2)]) =
      pydanticStringify (.obj [("a", .num 2), ("b", .num 1)]) :=
  pydanticStringify_canonical.2.2.2.1 _ _
    (List.Perm.swap ("a", Json.num 2) ("b", Json.num 1) []) (by decide)

end UAgents
